import Mathlib

/-!
Verification of the resilient RPC access layer and monitoring loop of
`stellar-insights` (`src/backend/src/rpc/*.rs`, `src/backend/src/alerts.rs`,
`src/backend/src/monitor.rs`) against its natural-language specification.

The Rust code is shallowly embedded: machine integers become `Nat`
(no arithmetic here ever reaches an overflow boundary relevant to a claim,
and the Rust code uses saturating arithmetic at the one spot it could),
`Instant`s become `Nat` timestamps with `elapsed = now - opened_at`,
`f64` metric values become `ℚ`, and the asynchronous operations become
explicit state passing over the breaker state.
-/

namespace StellarInsights

instance {ε β : Type} [DecidableEq ε] [DecidableEq β] : DecidableEq (Except ε β) :=
  fun a b =>
    match a, b with
    | .ok x, .ok y =>
        if h : x = y then .isTrue (h ▸ rfl)
        else .isFalse (fun hh => h (by injection hh))
    | .ok _, .error _ => .isFalse (fun hh => Except.noConfusion hh)
    | .error _, .ok _ => .isFalse (fun hh => Except.noConfusion hh)
    | .error x, .error y =>
        if h : x = y then .isTrue (h ▸ rfl)
        else .isFalse (fun hh => h (by injection hh))

/-- Error taxonomy from `src/backend/src/rpc/error.rs`, `enum RpcError`.
Durations carried by variants are milliseconds as `Nat`; the `u16` HTTP
status is a `Nat`. -/
inductive RpcError where
  | NetworkError (msg : String)
  | RateLimitError (retry_after : Option Nat)
  | ServerError (status : Nat) (message : String)
  | ParseError (msg : String)
  | TimeoutError (msg : String)
  | CircuitBreakerOpen
  deriving Repr, DecidableEq

/-- From `RpcError::is_transient` (error.rs lines 46-51): network, timeout and
rate-limit errors. -/
def RpcError.is_transient : RpcError → Bool
  | .NetworkError _ => true
  | .TimeoutError _ => true
  | .RateLimitError _ => true
  | _ => false

/-- From `RpcError::is_retryable` (error.rs lines 40-43):
`self.is_transient() || matches!(self, Self::ServerError { status, .. } if *status >= 500)`. -/
def RpcError.is_retryable (e : RpcError) : Bool :=
  e.is_transient ||
    (match e with
     | .ServerError status _ => decide (500 ≤ status)
     | _ => false)

/-- Modelled from the spec: `RpcError::retry_after` is called by
`retry_with_backoff` in `src/backend/src/rpc/retry.rs` but its definition is
missing from the source snapshot; spec 4.1 says it "extracts a suggested wait
from `RateLimitError`; all other variants return none". -/
def RpcError.retry_after : RpcError → Option Nat
  | .RateLimitError r => r
  | _ => none

/-- From `CircuitBreakerConfig` in `src/backend/src/rpc/circuit_breaker.rs`;
`timeout_duration` is in abstract clock ticks. -/
structure CircuitBreakerConfig where
  failure_threshold : Nat
  success_threshold : Nat
  timeout_duration : Nat
  half_open_max_calls : Nat
  deriving Repr, DecidableEq

/-- From `enum CircuitState` in circuit_breaker.rs; `opened_at` is an abstract
monotone timestamp standing for the Rust `Instant`. -/
inductive CircuitState where
  | Closed (failure_count : Nat)
  | Open (opened_at : Nat)
  | HalfOpen (success_count : Nat)
  deriving Repr, DecidableEq

/-- From `CircuitBreaker::is_open` (circuit_breaker.rs lines 81-94): reports
whether the call must be rejected and performs the `Open` → `HalfOpen`
transition once `opened_at.elapsed() >= timeout_duration`. -/
def cbIsOpen (cfg : CircuitBreakerConfig) (s : CircuitState) (now : Nat) :
    Bool × CircuitState :=
  match s with
  | .Open opened_at =>
      if cfg.timeout_duration ≤ now - opened_at then (false, .HalfOpen 0)
      else (true, .Open opened_at)
  | _ => (false, s)

/-- From `CircuitBreaker::on_success` (circuit_breaker.rs lines 96-111). -/
def cbOnSuccess (cfg : CircuitBreakerConfig) (s : CircuitState) : CircuitState :=
  match s with
  | .HalfOpen success_count =>
      if cfg.success_threshold ≤ success_count + 1 then .Closed 0
      else .HalfOpen (success_count + 1)
  | _ => .Closed 0

/-- From `CircuitBreaker::on_failure` (circuit_breaker.rs lines 113-133); `now`
is the timestamp taken for `Instant::now()`. -/
def cbOnFailure (cfg : CircuitBreakerConfig) (s : CircuitState) (now : Nat) :
    CircuitState :=
  match s with
  | .Closed failure_count =>
      if cfg.failure_threshold ≤ failure_count + 1 then .Open now
      else .Closed (failure_count + 1)
  | .HalfOpen _ => .Open now
  | .Open opened_at => .Open opened_at

/-- Result of one guarded call: the breaker state afterwards, whether the
wrapped operation was actually evaluated, and the returned value or error. -/
structure CallStep (α : Type) where
  state : CircuitState
  invoked : Bool
  result : Except RpcError α

/-- From `CircuitBreaker::call` (circuit_breaker.rs lines 59-79): reject with
`CircuitBreakerOpen` when open, otherwise run the operation (whose outcome is
the `outcome` argument), count successes always and failures only when
`is_retryable()`. -/
def cbCall (cfg : CircuitBreakerConfig) (s : CircuitState) (now : Nat)
    (outcome : Except RpcError α) : CallStep α :=
  let p := cbIsOpen cfg s now
  if p.1 then ⟨p.2, false, .error .CircuitBreakerOpen⟩
  else
    match outcome with
    | .ok v => ⟨cbOnSuccess cfg p.2, true, .ok v⟩
    | .error e =>
        ⟨if e.is_retryable then cbOnFailure cfg p.2 now else p.2, true, .error e⟩

/-- A sequence of calls through one breaker: each element of the trace is the
timestamp of the call and the outcome its wrapped operation would produce. -/
def cbRun (cfg : CircuitBreakerConfig) (s : CircuitState)
    (trace : List (Nat × Except RpcError Unit)) : CircuitState :=
  trace.foldl (fun st p => (cbCall cfg st p.1 p.2).state) s

/-- One step of the consecutive-retryable-failure counter: reset on success,
increment on a retryable failure, unchanged on a non-retryable failure. -/
def streakStep (n : Nat) (p : Nat × Except RpcError Unit) : Nat :=
  match p.2 with
  | .ok _ => 0
  | .error e => if e.is_retryable then n + 1 else n

/-- Count of consecutive retryable failures at the end of a trace (not reset
by non-retryable failures, reset by any success). -/
def streak (trace : List (Nat × Except RpcError Unit)) : Nat :=
  trace.foldl streakStep 0

/-- From `RetryConfig` in error.rs lines 90-105; delays in milliseconds. -/
structure RetryConfig where
  max_attempts : Nat
  base_delay_ms : Nat
  max_delay_ms : Nat
  deriving Repr, DecidableEq

/-- Result of a full retry run: the final outcome, the number of times the
wrapped operation was invoked, the delays slept between attempts (in order),
and the breaker state afterwards. -/
structure RetryRun (α : Type) where
  result : Except RpcError α
  invocations : Nat
  delays : List Nat
  state : CircuitState

/-- From the loop of `with_retry` in error.rs lines 116-140, one iteration per
call. `attempt` is the value of the Rust counter before `attempt += 1`, `inv`
counts operation invocations so far, `delays` accumulates slept delays in
reverse, `s` is the breaker state, and `times att` gives the clock value at
attempt `att`. Each iteration runs the operation through the breaker
(`circuit_breaker.call(&operation)`); the Rust early return on
`!e.is_transient() || attempt >= config.max_attempts` appears as its negation
guarding the recursive call, and the slept delay is
`min(base_delay_ms * 2^(attempt-1), max_delay_ms)` (saturating `u64`
arithmetic modelled by unbounded `Nat`). -/
def withRetryGo (cfg : RetryConfig) (bcfg : CircuitBreakerConfig)
    (op : Nat → Except RpcError α) (times : Nat → Nat)
    (attempt inv : Nat) (delays : List Nat) (s : CircuitState) : RetryRun α :=
  let att := attempt + 1
  let step := cbCall bcfg s (times att) (op inv)
  let inv2 := if step.invoked then inv + 1 else inv
  match step.result with
  | .ok v => ⟨.ok v, inv2, delays.reverse, step.state⟩
  | .error e =>
      if h : e.is_transient = true ∧ att < cfg.max_attempts then
        withRetryGo cfg bcfg op times att inv2
          (min (cfg.base_delay_ms * 2 ^ (att - 1)) cfg.max_delay_ms :: delays)
          step.state
      else ⟨.error e, inv2, delays.reverse, step.state⟩
termination_by cfg.max_attempts - attempt
decreasing_by omega

/-- From `with_retry` in error.rs lines 107-141: the loop entered with
`attempt = 0`, no invocations yet and breaker state `s`. -/
def with_retry (cfg : RetryConfig) (bcfg : CircuitBreakerConfig)
    (op : Nat → Except RpcError α) (times : Nat → Nat) (s : CircuitState) :
    RetryRun α :=
  withRetryGo cfg bcfg op times 0 0 [] s

/-- Result of a `retry_with_backoff` run (no breaker involved): outcome,
invocation count, and slept delays in order. -/
structure BackoffRun (α : Type) where
  result : Except RpcError α
  invocations : Nat
  delays : List Nat

/-- From the loop of `retry_with_backoff` in retry.rs lines 25-47. `attempt`
is the Rust counter (number of completed retries so far, also the index of the
current invocation), `backoff` the current exponential delay, `delays` the
slept delays in reverse. Retries when `e.is_retryable() && attempt <
max_retries`; sleeps `retry_after` when the error carries it, else `backoff`;
then doubles `backoff` capped at `max_backoff`. -/
def retryWithBackoffGo (max_retries max_backoff : Nat)
    (op : Nat → Except RpcError α) (attempt backoff : Nat)
    (delays : List Nat) : BackoffRun α :=
  match op attempt with
  | .ok v => ⟨.ok v, attempt + 1, delays.reverse⟩
  | .error e =>
      if h : e.is_retryable = true ∧ attempt < max_retries then
        let sleep_duration := match e.retry_after with
          | some retry_after => retry_after
          | none => backoff
        retryWithBackoffGo max_retries max_backoff op (attempt + 1)
          (min (backoff * 2) max_backoff) (sleep_duration :: delays)
      else ⟨.error e, attempt + 1, delays.reverse⟩
termination_by max_retries - attempt
decreasing_by omega

/-- From `retry_with_backoff` in retry.rs lines 12-48. -/
def retry_with_backoff (op : Nat → Except RpcError α)
    (max_retries initial_backoff max_backoff : Nat) : BackoffRun α :=
  retryWithBackoffGo max_retries max_backoff op 0 initial_backoff []

/-- From `RpcClientConfig` in stellar.rs lines 13-19 (backoffs in ms). -/
structure RpcClientConfig where
  max_retries : Nat
  initial_backoff : Nat
  max_backoff : Nat
  circuit_breaker : CircuitBreakerConfig
  deriving Repr, DecidableEq

/-- From `StellarRpcClient::with_circuit_and_retry` in stellar.rs lines
421-444: ONE breaker call wrapping the whole `retry_with_backoff` sequence
(`self.circuit_breaker.call(async { retry::retry_with_backoff(...) })`), so
the breaker gate is consulted once, before the sequence, and its counters are
updated once, with the sequence's final result. If the gate rejects, nothing
is invoked. -/
def with_circuit_and_retry (cfg : RpcClientConfig) (s : CircuitState)
    (now : Nat) (op : Nat → Except RpcError α) : RetryRun α :=
  let r := retry_with_backoff op cfg.max_retries cfg.initial_backoff cfg.max_backoff
  let step := cbCall cfg.circuit_breaker s now r.result
  ⟨step.result, if step.invoked then r.invocations else 0,
   if step.invoked then r.delays else [], step.state⟩

/-- From `enum AlertType` in `src/backend/src/alerts.rs` lines 5-12. -/
inductive AlertType where
  | SuccessRateDrop
  | LatencyIncrease
  | LiquidityDecrease
  | AnchorStatusChange
  | AnchorMetricChange
  deriving Repr, DecidableEq

/-- From `struct Alert` in alerts.rs lines 14-23, with the metric values as
`ℚ` in place of `f64`. The `message` (a formatted rendering of the two
values) and `timestamp` (wall-clock `Utc::now()`) fields carry no claim
content and are omitted. -/
structure Alert where
  alert_type : AlertType
  corridor_id : Option String
  anchor_id : Option String
  old_value : ℚ
  new_value : ℚ
  deriving Repr, DecidableEq

/-- From `AlertManager::check_and_alert` in alerts.rs lines 55-109: the list
of alerts broadcast for one entity in one cycle, in emission order. Three
independent threshold checks, each sending one alert. -/
def check_and_alert (corridor_id : String)
    (old_success new_success old_latency new_latency
     old_liquidity new_liquidity : ℚ) : List Alert :=
  (if new_success < old_success - 10 then
    [⟨.SuccessRateDrop, some corridor_id, none, old_success, new_success⟩]
   else []) ++
  (if new_latency > old_latency * 1.5 then
    [⟨.LatencyIncrease, some corridor_id, none, old_latency, new_latency⟩]
   else []) ++
  (if new_liquidity < old_liquidity * 0.7 then
    [⟨.LiquidityDecrease, some corridor_id, none, old_liquidity, new_liquidity⟩]
   else [])

/-- From `struct Payment` in stellar.rs lines 131-143. -/
structure Payment where
  id : String
  paging_token : String
  transaction_hash : String
  source_account : String
  destination : String
  asset_type : String
  asset_code : Option String
  asset_issuer : Option String
  amount : String
  created_at : String
  deriving Repr, DecidableEq

/-- Accessor used by the monitor (`payment.get_asset_code()`); its definition
is not in the source snapshot, so it is taken as the read of the homonymous
field. -/
def Payment.get_asset_code (p : Payment) : Option String := p.asset_code

/-- Accessor used by the monitor (`payment.get_asset_issuer()`); taken as the
read of the homonymous field. -/
def Payment.get_asset_issuer (p : Payment) : Option String := p.asset_issuer

/-- Accessor used by the monitor (`payment.get_amount()`); taken as the read
of the homonymous field. -/
def Payment.get_amount (p : Payment) : String := p.amount

/-- From `struct CorridorState` in `src/backend/src/monitor.rs` lines 19-24
(the stored snapshot), metric values as `ℚ`. -/
structure CorridorState where
  success_rate : ℚ
  latency : ℚ
  liquidity : ℚ
  deriving Repr, DecidableEq

/-- The corridor key built in `check_corridors` (monitor.rs lines 76-80):
`format!("{}:{}->XLM:native", code.unwrap_or("XLM"), issuer.unwrap_or("native"))`. -/
def corridorKey (p : Payment) : String :=
  (p.get_asset_code.getD "XLM") ++ ":" ++ (p.get_asset_issuer.getD "native")
    ++ "->XLM:native"

/-- The snapshot derived per corridor in `check_corridors` (monitor.rs lines
90-95): `success_rate = 100.0`, `latency = 400.0 + success_rate * 2.0`,
`liquidity` the sum of the payments' parseable amounts. `parse` stands for
`str::parse::<f64>().ok()`, an uninterpreted `String → Option ℚ` here. -/
def deriveCorridorState (parse : String → Option ℚ) (payments : List Payment) :
    CorridorState :=
  let success_rate : ℚ := 100
  let latency : ℚ := 400 + success_rate * 2
  let liquidity : ℚ := (payments.filterMap (fun p => parse p.get_amount)).sum
  ⟨success_rate, latency, liquidity⟩

/-- The per-corridor loop of `CorridorMonitor::check_corridors` (monitor.rs
lines 89-199): for each corridor derive the snapshot, run `check_and_alert`
against the stored previous snapshot when one exists (first sighting raises
nothing), then unconditionally overwrite the stored snapshot. The grouped
`corridor_map` is taken as the input list (its `HashMap` iteration order is
unspecified, hence the key-distinctness hypotheses on the theorems); the
webhook side effects (fire-and-forget external triggers) are outside the
alert path and omitted. -/
def checkCorridorsGo (parse : String → Option ℚ) (alerts : List Alert)
    (prev : String → Option CorridorState) :
    List (String × List Payment) → List Alert × (String → Option CorridorState)
  | [] => (alerts, prev)
  | entry :: rest =>
      let st := deriveCorridorState parse entry.2
      let alerts2 := match prev entry.1 with
        | some old =>
            alerts ++ check_and_alert entry.1 old.success_rate st.success_rate
              old.latency st.latency old.liquidity st.liquidity
        | none => alerts
      checkCorridorsGo parse alerts2
        (fun k => if k = entry.1 then some st else prev k) rest

/-- One cycle of `check_corridors` over the grouped corridor map, starting
with no alerts emitted. -/
def check_corridors (parse : String → Option ℚ)
    (prev : String → Option CorridorState)
    (corridors : List (String × List Payment)) :
    List Alert × (String → Option CorridorState) :=
  checkCorridorsGo parse [] prev corridors

/-- From `struct HealthResponse` in stellar.rs lines 92-101. -/
structure HealthResponse where
  status : String
  latest_ledger : Nat
  oldest_ledger : Nat
  ledger_retention_window : Nat
  deriving Repr, DecidableEq

/-- Zero-padding to width 3, the `{:03}` format specifier. -/
def padTo3 (n : Nat) : String :=
  let s := toString n
  if s.length < 3 then String.mk (List.replicate (3 - s.length) '0') ++ s else s

/-- Zero-padding to width 2, the `{:02}` format specifier. -/
def padTo2 (n : Nat) : String :=
  let s := toString n
  if s.length < 2 then String.mk (List.replicate (2 - s.length) '0') ++ s else s

/-- From `StellarRpcClient::mock_payments` in stellar.rs lines 790-820: a pure
function of `limit` alone. -/
def mock_payments (limit : Nat) : List Payment :=
  (List.range limit).map (fun i =>
    { id := "payment_" ++ toString i
      paging_token := "paging_" ++ toString i
      transaction_hash := "txhash_" ++ toString i
      source_account :=
        "GXXXXXXXXXXXXXXXXXXXXXXXXXXXXXXXXXXXXXXXXXXXXXXXX" ++ padTo3 i
      destination :=
        "GDYYYYYYYYYYYYYYYYYYYYYYYYYYYYYYYYYYYYYYYYYYYYYY" ++ padTo3 i
      asset_type := if i % 3 = 0 then "native" else "credit_alphanum4"
      asset_code := if i % 3 = 0 then none else some "USDC"
      asset_issuer :=
        if i % 3 = 0 then none
        else some "GBXXXXXXXXXXXXXXXXXXXXXXXXXXXXXXXXXXXXXXXXXXXXXXX"
      amount := toString (100 + i * 10) ++ ".0000000"
      created_at := "2026-01-22T10:" ++ padTo2 (i % 60) ++ ":00Z" })

/-- From `StellarRpcClient::mock_health_response` in stellar.rs lines 747-754. -/
def mock_health_response : HealthResponse :=
  ⟨"healthy", 51583040, 51565760, 17280⟩

/-- From `struct StellarRpcClient` in stellar.rs lines 78-86: the fields the
claims touch. The breaker's mutable state is carried in `circuit_breaker`;
the HTTP handle is dropped (network behavior enters as the `net` argument of
each fetch operation). -/
structure StellarRpcClient where
  rpc_url : String
  horizon_url : String
  mock_mode : Bool
  circuit_breaker : CircuitState
  config : RpcClientConfig

/-- From `StellarRpcClient::fetch_payments` in stellar.rs lines 529-539: mock
mode returns `mock_payments(limit)` immediately; otherwise the internal fetch
(`net`, giving the outcome of each network attempt) runs through
`with_circuit_and_retry`. Returns the result and the client with its updated
breaker state. -/
def fetch_payments (c : StellarRpcClient) (limit : Nat) (now : Nat)
    (net : Nat → Except RpcError (List Payment)) :
    Except RpcError (List Payment) × StellarRpcClient :=
  if c.mock_mode then (.ok (mock_payments limit), c)
  else
    let r := with_circuit_and_retry c.config c.circuit_breaker now net
    (r.result, { c with circuit_breaker := r.state })

/-- From `StellarRpcClient::check_health` in stellar.rs lines 373-396: mock
mode returns `mock_health_response()` immediately; otherwise the health probe
runs through the breaker-wrapped retry (the same composition as
`with_circuit_and_retry`, inlined in the source). -/
def check_health (c : StellarRpcClient) (now : Nat)
    (net : Nat → Except RpcError HealthResponse) :
    Except RpcError HealthResponse × StellarRpcClient :=
  if c.mock_mode then (.ok mock_health_response, c)
  else
    let r := with_circuit_and_retry c.config c.circuit_breaker now net
    (r.result, { c with circuit_breaker := r.state })

/-! Helper lemmas about single guarded calls and runs of the breaker. -/

/-- A success through a closed breaker resets the failure counter. -/
theorem cbCall_closed_ok (cfg : CircuitBreakerConfig) (f now : Nat) (v : α) :
    cbCall cfg (.Closed f) now (.ok v) = ⟨.Closed 0, true, .ok v⟩ := rfl

/-- A non-retryable failure through a closed breaker leaves the state alone. -/
theorem cbCall_closed_err_nonretryable (cfg : CircuitBreakerConfig)
    (f now : Nat) (e : RpcError) (h : e.is_retryable = false) :
    cbCall cfg (.Closed f) now (.error (α := α) e) = ⟨.Closed f, true, .error e⟩ := by
  simp [cbCall, cbIsOpen, h]

/-- A retryable failure through a closed breaker counts toward opening. -/
theorem cbCall_closed_err_retryable (cfg : CircuitBreakerConfig)
    (f now : Nat) (e : RpcError) (h : e.is_retryable = true) :
    cbCall cfg (.Closed f) now (.error (α := α) e) =
      ⟨if cfg.failure_threshold ≤ f + 1 then .Open now else .Closed (f + 1),
       true, .error e⟩ := by
  simp [cbCall, cbIsOpen, cbOnFailure, h]

/-- While every prefix keeps the consecutive-retryable-failure count below the
threshold, the breaker stays closed and its counter tracks that count. -/
theorem cbRun_closed_of_streak_lt (cfg : CircuitBreakerConfig) :
    ∀ (trace : List (Nat × Except RpcError Unit)) (c : Nat),
      (∀ p, p <+: trace → List.foldl streakStep c p < cfg.failure_threshold) →
      cbRun cfg (.Closed c) trace = .Closed (List.foldl streakStep c trace) := by
  intro trace
  induction trace with
  | nil => intro c _; rfl
  | cons x rest ih =>
      intro c h
      obtain ⟨t, o⟩ := x
      have h1 : streakStep c (t, o) < cfg.failure_threshold := by
        have := h [(t, o)] (List.cons_prefix_cons.mpr ⟨rfl, List.nil_prefix⟩)
        simpa using this
      have hrest : ∀ p, p <+: rest →
          List.foldl streakStep (streakStep c (t, o)) p < cfg.failure_threshold := by
        intro p hp
        have := h ((t, o) :: p) (List.cons_prefix_cons.mpr ⟨rfl, hp⟩)
        simpa using this
      cases o with
      | ok u =>
          cases u
          have hs : streakStep c (t, (.ok () : Except RpcError Unit)) = 0 := rfl
          rw [hs] at hrest
          exact ih 0 hrest
      | error e =>
          by_cases hre : e.is_retryable = true
          · have hs : streakStep c (t, (.error e : Except RpcError Unit)) = c + 1 := by
              simp [streakStep, hre]
            rw [hs] at hrest h1
            have hlt : ¬ (cfg.failure_threshold ≤ c + 1) := by omega
            have hstate : (cbCall cfg (.Closed c) t
                (.error (α := Unit) e)).state = .Closed (c + 1) := by
              rw [cbCall_closed_err_retryable cfg c t e hre]
              simp [hlt]
            simp only [cbRun, List.foldl_cons]
            rw [hstate, hs]
            exact ih (c + 1) hrest
          · have hre2 : e.is_retryable = false := by
              cases hb : e.is_retryable
              · rfl
              · exact absurd hb hre
            have hs : streakStep c (t, (.error e : Except RpcError Unit)) = c := by
              simp [streakStep, hre2]
            rw [hs] at hrest
            have hstate : (cbCall cfg (.Closed c) t
                (.error (α := Unit) e)).state = .Closed c := by
              rw [cbCall_closed_err_nonretryable cfg c t e hre2]
            simp only [cbRun, List.foldl_cons]
            rw [hstate, hs]
            exact ih c hrest

/-- Once the streak of a prefix reaches the threshold, some prefix of the
trace drives the breaker from `Closed 0` into `Open`. -/
theorem open_prefix_of_streak (cfg : CircuitBreakerConfig)
    (hth : 0 < cfg.failure_threshold) :
    ∀ (n : Nat) (p : List (Nat × Except RpcError Unit)), p.length ≤ n →
      cfg.failure_threshold ≤ streak p →
      ∃ q, q <+: p ∧ ∃ t, cbRun cfg (.Closed 0) q = .Open t := by
  intro n
  induction n with
  | zero =>
      intro p hlen hs
      have hp : p = [] := List.length_eq_zero.mp (Nat.le_zero.mp hlen)
      subst hp
      simp [streak] at hs
      omega
  | succ n ih =>
      intro p hlen hs
      by_cases hprev : ∃ q, q <+: p ∧ q.length < p.length ∧
          cfg.failure_threshold ≤ streak q
      · obtain ⟨q, hq, hql, hqs⟩ := hprev
        obtain ⟨r, hr, t, ht⟩ := ih q (by omega) hqs
        exact ⟨r, hr.trans hq, t, ht⟩
      · push_neg at hprev
        have hpne : p ≠ [] := by
          intro hnil
          subst hnil
          simp [streak] at hs
          omega
        rcases List.eq_nil_or_concat' p with hnil | ⟨q, x, rfl⟩
        · exact absurd hnil hpne
        have hq_pref : q <+: q ++ [x] := List.prefix_append q [x]
        have hqlen : q.length < (q ++ [x]).length := by simp
        have hqs : streak q < cfg.failure_threshold := hprev q hq_pref hqlen
        have hsub : ∀ r, r <+: q →
            List.foldl streakStep 0 r < cfg.failure_threshold := by
          intro r hr
          exact hprev r (hr.trans hq_pref) (lt_of_le_of_lt hr.length_le hqlen)
        have hrun : cbRun cfg (.Closed 0) q = .Closed (streak q) :=
          cbRun_closed_of_streak_lt cfg q 0 hsub
        have hstep : streak (q ++ [x]) = streakStep (streak q) x := by
          simp [streak, List.foldl_append]
        obtain ⟨t, o⟩ := x
        cases o with
        | ok u =>
            rw [hstep] at hs
            simp [streakStep] at hs
            omega
        | error e =>
            by_cases hre : e.is_retryable = true
            · refine ⟨q ++ [(t, .error e)], List.prefix_refl _, t, ?_⟩
              have happ : cbRun cfg (.Closed 0) (q ++ [(t, .error e)]) =
                  (cbCall cfg (cbRun cfg (.Closed 0) q) t (.error (α := Unit) e)).state := by
                simp [cbRun, List.foldl_append]
              rw [happ, hrun, cbCall_closed_err_retryable cfg (streak q) t e hre]
              have : cfg.failure_threshold ≤ streak q + 1 := by
                rw [hstep] at hs
                simpa [streakStep, hre] using hs
              simp [this]
            · rw [hstep] at hs
              have hre2 : e.is_retryable = false := by
                cases hb : e.is_retryable
                · rfl
                · exact absurd hb hre
              simp [streakStep, hre2] at hs
              omega

/-- C1: starting from `Closed{failure_count: 0}`, the breaker transitions to
`Open` if and only if the count of consecutive `is_retryable()` failures (not
reset by an intervening success, unaffected by non-retryable failures)
reaches `failure_threshold`; a non-retryable failure leaves a closed breaker
unchanged, a retryable failure in `Closed{f}` yields `Open{now}` when
`f+1 ≥ failure_threshold` and `Closed{f+1}` otherwise, and any success while
closed resets the state to `Closed{failure_count: 0}`. -/
theorem breaker_opens_iff_consecutive_retryable_failures
    (cfg : CircuitBreakerConfig) (hth : 0 < cfg.failure_threshold) :
    (∀ f now (e : RpcError), e.is_retryable = false →
       cbCall cfg (.Closed f) now (.error (α := Unit) e) =
         ⟨.Closed f, true, .error e⟩) ∧
    (∀ f now (e : RpcError), e.is_retryable = true →
       cbCall cfg (.Closed f) now (.error (α := Unit) e) =
         ⟨if cfg.failure_threshold ≤ f + 1 then .Open now else .Closed (f + 1),
          true, .error e⟩) ∧
    (∀ f now, cbCall cfg (.Closed f) now (.ok ()) = ⟨.Closed 0, true, .ok ()⟩) ∧
    (∀ trace : List (Nat × Except RpcError Unit),
       (∃ p, p <+: trace ∧ ∃ t, cbRun cfg (.Closed 0) p = .Open t) ↔
       (∃ p, p <+: trace ∧ cfg.failure_threshold ≤ streak p)) := by
  refine ⟨fun f now e h => cbCall_closed_err_nonretryable cfg f now e h,
          fun f now e h => cbCall_closed_err_retryable cfg f now e h,
          fun f now => cbCall_closed_ok cfg f now (),
          fun trace => ⟨?_, ?_⟩⟩
  · rintro ⟨p, hp, t, hopen⟩
    by_contra hno
    push_neg at hno
    have : cbRun cfg (.Closed 0) p = .Closed (streak p) :=
      cbRun_closed_of_streak_lt cfg p 0 (fun r hr => hno r (hr.trans hp))
    rw [this] at hopen
    exact CircuitState.noConfusion hopen
  · rintro ⟨p, hp, hs⟩
    obtain ⟨q, hq, t, ho⟩ := open_prefix_of_streak cfg hth p.length p le_rfl hs
    exact ⟨q, hq.trans hp, t, ho⟩

/-- Witness for C1 at a concrete configuration and inputs. -/
theorem breaker_opens_iff_consecutive_retryable_failures_witness :
    cbCall ⟨2, 1, 30, 3⟩ (.Closed 0) 5 (.error (α := Unit) (.ParseError "bad")) =
      ⟨.Closed 0, true, .error (.ParseError "bad")⟩ ∧
    cbCall ⟨2, 1, 30, 3⟩ (.Closed 3) 7 (.ok ()) = ⟨.Closed 0, true, .ok ()⟩ := by
  have h := breaker_opens_iff_consecutive_retryable_failures ⟨2, 1, 30, 3⟩ (by decide)
  exact ⟨h.1 0 5 (.ParseError "bad") (by decide), h.2.2.1 3 7⟩

/-- C2: every call on an open breaker made before `timeout_duration` has
elapsed since `opened_at` returns `CircuitBreakerOpen`, does not invoke the
wrapped operation, and leaves the state `Open` with the original `opened_at`. -/
theorem breaker_open_rejects_before_timeout (cfg : CircuitBreakerConfig)
    {α : Type} (opened_at now : Nat) (outcome : Except RpcError α)
    (h : now - opened_at < cfg.timeout_duration) :
    cbCall cfg (.Open opened_at) now outcome =
      ⟨.Open opened_at, false, .error .CircuitBreakerOpen⟩ := by
  have h2 : ¬ (cfg.timeout_duration ≤ now - opened_at) := by omega
  simp [cbCall, cbIsOpen, h2]

/-- Witness for C2: a call 10 ticks after opening with a 30-tick timeout. -/
theorem breaker_open_rejects_before_timeout_witness :
    20 - 10 < (30 : Nat) ∧
    cbCall ⟨5, 2, 30, 3⟩ (.Open 10) 20 (.ok (42 : Nat)) =
      ⟨.Open 10, false, .error .CircuitBreakerOpen⟩ :=
  ⟨by decide, breaker_open_rejects_before_timeout ⟨5, 2, 30, 3⟩ 10 20 (.ok 42) (by decide)⟩

/-- All-success runs from a closed breaker stay closed with counter 0. -/
theorem cbRun_closed_zero_ok (cfg : CircuitBreakerConfig) :
    ∀ (trace : List (Nat × Except RpcError Unit)),
      (∀ x ∈ trace, x.2 = .ok ()) → cbRun cfg (.Closed 0) trace = .Closed 0 := by
  intro trace
  induction trace with
  | nil => intro _; rfl
  | cons x rest ih =>
      intro h
      obtain ⟨t, o⟩ := x
      have ho : o = .ok () := h (t, o) (List.mem_cons_self _ _)
      subst ho
      exact ih (fun y hy => h y (List.mem_cons_of_mem _ hy))

/-- A run of consecutive successes from `HalfOpen k`: each success increments
the counter until it reaches `success_threshold`, which closes the breaker. -/
theorem cbRun_halfopen_ok (cfg : CircuitBreakerConfig) :
    ∀ (trace : List (Nat × Except RpcError Unit)) (k : Nat),
      k < cfg.success_threshold → (∀ x ∈ trace, x.2 = .ok ()) →
      cbRun cfg (.HalfOpen k) trace =
        if cfg.success_threshold ≤ k + trace.length then .Closed 0
        else .HalfOpen (k + trace.length) := by
  intro trace
  induction trace with
  | nil =>
      intro k hk _
      simp only [cbRun, List.foldl_nil, List.length_nil, Nat.add_zero]
      rw [if_neg (by omega)]
  | cons x rest ih =>
      intro k hk h
      obtain ⟨t, o⟩ := x
      have ho : o = .ok () := h (t, o) (List.mem_cons_self _ _)
      subst ho
      have hrest : ∀ x ∈ rest, x.2 = Except.ok () :=
        fun y hy => h y (List.mem_cons_of_mem _ hy)
      by_cases hcl : cfg.success_threshold ≤ k + 1
      · have hstate : (cbCall cfg (.HalfOpen k) t
            (.ok (α := Unit) ())).state = .Closed 0 := by
          simp [cbCall, cbIsOpen, cbOnSuccess, hcl]
        have hcond : cfg.success_threshold ≤ k + ((t, Except.ok ()) :: rest).length := by
          simp only [List.length_cons]
          omega
        simp only [cbRun, List.foldl_cons]
        rw [hstate, if_pos hcond]
        exact cbRun_closed_zero_ok cfg rest hrest
      · have hk1 : k + 1 < cfg.success_threshold := by omega
        have hstate : (cbCall cfg (.HalfOpen k) t
            (.ok (α := Unit) ())).state = .HalfOpen (k + 1) := by
          simp [cbCall, cbIsOpen, cbOnSuccess, hcl]
        simp only [cbRun, List.foldl_cons]
        rw [hstate]
        have hstep := ih (k + 1) hk1 hrest
        simp only [cbRun] at hstep
        rw [hstep]
        have harith : k + 1 + rest.length = k + ((t, Except.ok ()) :: rest).length := by
          simp only [List.length_cons]
          omega
        rw [harith]

/-- C3: once `timeout_duration` has elapsed on an open breaker, the next call
transitions the state to `HalfOpen{success_count: 0}` and the wrapped
operation is invoked; while half-open, `success_threshold` consecutive
successes close the breaker (each earlier success incrementing the counter),
and a single retryable failure reopens it with a fresh `opened_at`. -/
theorem breaker_halfopen_probe_cycle (cfg : CircuitBreakerConfig) :
    (∀ opened_at now, cfg.timeout_duration ≤ now - opened_at →
       cbIsOpen cfg (.Open opened_at) now = (false, .HalfOpen 0)) ∧
    (∀ opened_at now (outcome : Except RpcError Unit),
       cfg.timeout_duration ≤ now - opened_at →
       (cbCall cfg (.Open opened_at) now outcome).invoked = true) ∧
    (∀ trace : List (Nat × Except RpcError Unit), 0 < cfg.success_threshold →
       (∀ x ∈ trace, x.2 = .ok ()) →
       cbRun cfg (.HalfOpen 0) trace =
         if cfg.success_threshold ≤ trace.length then .Closed 0
         else .HalfOpen trace.length) ∧
    (∀ k now (e : RpcError), e.is_retryable = true →
       (cbCall cfg (.HalfOpen k) now (.error (α := Unit) e)).state = .Open now) := by
  refine ⟨fun opened_at now h => by simp [cbIsOpen, h],
          fun opened_at now outcome h => ?_,
          fun trace hth hall => ?_,
          fun k now e h => by simp [cbCall, cbIsOpen, cbOnFailure, h]⟩
  · cases outcome <;> simp [cbCall, cbIsOpen, h]
  · simpa using cbRun_halfopen_ok cfg trace 0 hth hall

/-- Witness for C3 at a concrete configuration: timeout 30 elapsed at `now =
45`, then two successes close the breaker with `success_threshold = 2`. -/
theorem breaker_halfopen_probe_cycle_witness :
    cbIsOpen ⟨5, 2, 30, 3⟩ (.Open 10) 45 = (false, .HalfOpen 0) ∧
    cbRun ⟨5, 2, 30, 3⟩ (.HalfOpen 0) [(45, .ok ()), (46, .ok ())] = .Closed 0 ∧
    (cbCall ⟨5, 2, 30, 3⟩ (.HalfOpen 1) 50
       (.error (α := Unit) (.NetworkError "down"))).state = .Open 50 := by
  have h := breaker_halfopen_probe_cycle ⟨5, 2, 30, 3⟩
  refine ⟨h.1 10 45 (by decide), ?_, h.2.2.2 1 50 (.NetworkError "down") (by decide)⟩
  have := h.2.2.1 [(45, .ok ()), (46, .ok ())] (by decide) (by simp)
  simpa using this

/-- C4 counterexample: the claim says `is_retryable()` returns false for
`RateLimitError`, but `is_retryable` delegates to `is_transient()`, which
includes `RateLimitError`, so the code returns true. -/
theorem is_retryable_rate_limit_counterexample :
    ¬ ((RpcError.RateLimitError none).is_retryable = false) := by decide

/-- C4 amended: `is_retryable()` returns true exactly for `NetworkError`,
`TimeoutError`, `RateLimitError`, and `ServerError` with status ≥ 500 (no
upper bound at 599); it returns false for `ParseError`, `ServerError` with a
sub-500 status, and `CircuitBreakerOpen`. -/
theorem is_retryable_characterization (e : RpcError) :
    e.is_retryable = true ↔
      ((∃ m, e = .NetworkError m) ∨ (∃ m, e = .TimeoutError m) ∨
       (∃ r, e = .RateLimitError r) ∨
       (∃ s m, e = .ServerError s m ∧ 500 ≤ s)) := by
  cases e <;> simp [RpcError.is_retryable, RpcError.is_transient]

/-- Every alert emitted by `check_and_alert` is one of the three alert values
for that corridor, each carrying the compared old and new metric values. -/
theorem check_and_alert_shape (cid : String) (os ns ol nl oq nq : ℚ) :
    ∀ a ∈ check_and_alert cid os ns ol nl oq nq,
      a = ⟨.SuccessRateDrop, some cid, none, os, ns⟩ ∨
      a = ⟨.LatencyIncrease, some cid, none, ol, nl⟩ ∨
      a = ⟨.LiquidityDecrease, some cid, none, oq, nq⟩ := by
  intro a ha
  simp only [check_and_alert, List.mem_append] at ha
  rcases ha with (ha | ha) | ha
  · left
    split at ha
    · simpa using ha
    · simp at ha
  · right; left
    split at ha
    · simpa using ha
    · simp at ha
  · right; right
    split at ha
    · simpa using ha
    · simp at ha

/-- C7: for one entity and one pair of snapshots, `check_and_alert` emits a
`SuccessRateDrop` alert exactly when the new success rate is more than 10
absolute points below the old, a `LatencyIncrease` alert exactly when the
new latency exceeds 1.5 times the old, and a `LiquidityDecrease` alert
exactly when the new liquidity is below 0.7 times the old; the checks are
independent, each emitted alert carries the compared old and new values, and
the spec's concrete examples produce exactly the stated single alerts. -/
theorem check_and_alert_thresholds (cid : String) (os ns ol nl oq nq : ℚ) :
    ((⟨.SuccessRateDrop, some cid, none, os, ns⟩ : Alert) ∈
        check_and_alert cid os ns ol nl oq nq ↔ ns < os - 10) ∧
    ((⟨.LatencyIncrease, some cid, none, ol, nl⟩ : Alert) ∈
        check_and_alert cid os ns ol nl oq nq ↔ nl > ol * 1.5) ∧
    ((⟨.LiquidityDecrease, some cid, none, oq, nq⟩ : Alert) ∈
        check_and_alert cid os ns ol nl oq nq ↔ nq < oq * 0.7) ∧
    (∀ a ∈ check_and_alert cid os ns ol nl oq nq,
       (a.alert_type = .SuccessRateDrop →
          a = ⟨.SuccessRateDrop, some cid, none, os, ns⟩) ∧
       (a.alert_type = .LatencyIncrease →
          a = ⟨.LatencyIncrease, some cid, none, ol, nl⟩) ∧
       (a.alert_type = .LiquidityDecrease →
          a = ⟨.LiquidityDecrease, some cid, none, oq, nq⟩)) ∧
    check_and_alert cid 95 80 100 100 1000 1000 =
      [⟨.SuccessRateDrop, some cid, none, 95, 80⟩] ∧
    check_and_alert cid 100 100 100 100 1000 650 =
      [⟨.LiquidityDecrease, some cid, none, 1000, 650⟩] ∧
    check_and_alert cid 100 100 100 100 1000 750 = [] := by
  refine ⟨?_, ?_, ?_, ?_, ?_, ?_, ?_⟩
  · by_cases h1 : ns < os - 10 <;> by_cases h2 : nl > ol * 1.5 <;>
      by_cases h3 : nq < oq * 0.7 <;>
      simp [check_and_alert, h1, h2, h3]
  · by_cases h1 : ns < os - 10 <;> by_cases h2 : nl > ol * 1.5 <;>
      by_cases h3 : nq < oq * 0.7 <;>
      simp [check_and_alert, h1, h2, h3]
  · by_cases h1 : ns < os - 10 <;> by_cases h2 : nl > ol * 1.5 <;>
      by_cases h3 : nq < oq * 0.7 <;>
      simp [check_and_alert, h1, h2, h3]
  · intro a ha
    rcases check_and_alert_shape cid os ns ol nl oq nq a ha with rfl | rfl | rfl <;>
      refine ⟨?_, ?_, ?_⟩ <;> intro hty <;> first | rfl | simp at hty
  · norm_num [check_and_alert]
  · norm_num [check_and_alert]
  · norm_num [check_and_alert]

/-- Witness for C7: membership instantiated on the spec's 95 → 80 example. -/
theorem check_and_alert_thresholds_witness :
    (⟨.SuccessRateDrop, some "c", none, 95, 80⟩ : Alert) ∈
      check_and_alert "c" 95 80 100 100 1000 1000 ∧
    (⟨.SuccessRateDrop, some "c", none, 95, 80⟩ : Alert) =
      ⟨.SuccessRateDrop, some "c", none, 95, 80⟩ := by
  have h := check_and_alert_thresholds "c" 95 80 100 100 1000 1000
  have hmem := h.1.mpr (by norm_num)
  exact ⟨hmem, (h.2.2.2.1 _ hmem).1 rfl⟩

/-- A corridor whose key is not among the processed entries keeps its stored
snapshot through the cycle. -/
theorem checkCorridorsGo_snapshot_frame (parse : String → Option ℚ) :
    ∀ (corridors : List (String × List Payment)) (alerts : List Alert)
      (prev : String → Option CorridorState) (cid : String),
      cid ∉ corridors.map Prod.fst →
      (checkCorridorsGo parse alerts prev corridors).2 cid = prev cid := by
  intro corridors
  induction corridors with
  | nil => intro alerts prev cid _; rfl
  | cons entry rest ih =>
      intro alerts prev cid hmem
      obtain ⟨k, ps⟩ := entry
      have hk : cid ≠ k := by
        intro hkk
        exact hmem (by simp [hkk])
      have hrest : cid ∉ rest.map Prod.fst := fun hr => hmem (by simp [hr])
      simp only [checkCorridorsGo]
      rw [ih _ _ cid hrest]
      simp [hk]

/-- Processing overwrites the stored snapshot of every processed corridor
with the snapshot derived in this cycle. -/
theorem checkCorridorsGo_overwrites (parse : String → Option ℚ) :
    ∀ (corridors : List (String × List Payment)) (alerts : List Alert)
      (prev : String → Option CorridorState) (cid : String) (ps : List Payment),
      (corridors.map Prod.fst).Nodup → (cid, ps) ∈ corridors →
      (checkCorridorsGo parse alerts prev corridors).2 cid =
        some (deriveCorridorState parse ps) := by
  intro corridors
  induction corridors with
  | nil => intro alerts prev cid ps _ hmem; simp at hmem
  | cons entry rest ih =>
      intro alerts prev cid ps hnd hmem
      obtain ⟨k, qs⟩ := entry
      have hnd2 := hnd
      simp only [List.map_cons, List.nodup_cons] at hnd2
      rcases List.mem_cons.mp hmem with heq | hrest
      · obtain ⟨rfl, rfl⟩ := Prod.mk.injEq .. ▸ heq
        have hnotin : cid ∉ rest.map Prod.fst := by
          injection heq with h1 h2
          exact h1 ▸ hnd2.1
        simp only [checkCorridorsGo]
        rw [checkCorridorsGo_snapshot_frame parse rest _ _ cid hnotin]
        simp
      · exact ih _ _ cid ps hnd2.2 hrest

/-- Every alert emitted in a cycle belongs to a processed corridor whose key
had a stored snapshot when it was processed; in particular a corridor with no
stored snapshot and a unique key contributes no alert. -/
theorem checkCorridorsGo_no_alert_first_sighting (parse : String → Option ℚ) :
    ∀ (corridors : List (String × List Payment)) (alerts : List Alert)
      (prev : String → Option CorridorState) (cid : String),
      (corridors.map Prod.fst).Nodup →
      (prev cid = none ∨ cid ∉ corridors.map Prod.fst) →
      (∀ a ∈ alerts, a.corridor_id ≠ some cid) →
      ∀ a ∈ (checkCorridorsGo parse alerts prev corridors).1,
        a.corridor_id ≠ some cid := by
  intro corridors
  induction corridors with
  | nil => intro alerts prev cid _ _ hacc a ha; exact hacc a ha
  | cons entry rest ih =>
      intro alerts prev cid hnd hfresh hacc
      obtain ⟨k, qs⟩ := entry
      have hnd2 := hnd
      simp only [List.map_cons, List.nodup_cons] at hnd2
      by_cases hkc : k = cid
      · subst hkc
        have hpnone : prev k = none := by
          rcases hfresh with h | h
          · exact h
          · exact absurd (by simp) h
        simp only [checkCorridorsGo, hpnone]
        exact ih alerts _ k hnd2.2 (Or.inr hnd2.1) hacc
      · simp only [checkCorridorsGo]
        refine ih _ _ cid hnd2.2 ?_ ?_
        · rcases hfresh with h | h
          · left
            simpa [Ne.symm hkc] using h
          · right
            intro hr
            exact h (by simp [hr])
        · match hp : prev k with
          | none => simpa [hp] using hacc
          | some old =>
              simp only [hp]
              intro a ha
              rcases List.mem_append.mp ha with hin | hin
              · exact hacc a hin
              · rcases check_and_alert_shape k old.success_rate
                  (deriveCorridorState parse qs).success_rate old.latency
                  (deriveCorridorState parse qs).latency old.liquidity
                  (deriveCorridorState parse qs).liquidity a hin with rfl | rfl | rfl <;>
                  simpa using hkc

/-- C8: in every monitor cycle (grouped corridors with distinct keys), an
entity seen for the first time (no stored snapshot) triggers no alert in that
cycle, and the stored snapshot of every processed entity is unconditionally
overwritten with the snapshot derived in this cycle, whether or not any alert
fired. -/
theorem monitor_first_sighting_and_overwrite (parse : String → Option ℚ)
    (prev : String → Option CorridorState)
    (corridors : List (String × List Payment)) (cid : String)
    (hnodup : (corridors.map Prod.fst).Nodup) :
    (prev cid = none →
       ∀ a ∈ (check_corridors parse prev corridors).1, a.corridor_id ≠ some cid) ∧
    (∀ ps, (cid, ps) ∈ corridors →
       (check_corridors parse prev corridors).2 cid =
         some (deriveCorridorState parse ps)) := by
  constructor
  · intro hnone
    exact checkCorridorsGo_no_alert_first_sighting parse corridors [] prev cid
      hnodup (Or.inl hnone) (by intro a ha; simp at ha)
  · intro ps hmem
    exact checkCorridorsGo_overwrites parse corridors [] prev cid ps hnodup hmem

/-- Witness for C8: one corridor, empty prior state. -/
theorem monitor_first_sighting_and_overwrite_witness :
    (∀ a ∈ (check_corridors (fun _ => none) (fun _ => none)
        [("XLM:native->XLM:native", [])]).1,
       a.corridor_id ≠ some "XLM:native->XLM:native") ∧
    (check_corridors (fun _ => none) (fun _ => none)
        [("XLM:native->XLM:native", [])]).2 "XLM:native->XLM:native" =
      some (deriveCorridorState (fun _ => none) []) := by
  have h := monitor_first_sighting_and_overwrite (fun _ => none) (fun _ => none)
    [("XLM:native->XLM:native", [])] "XLM:native->XLM:native" (by simp)
  exact ⟨h.1 rfl, h.2 [] (by simp)⟩

/-- With equal old and new success rates (100) and latencies (600), only the
liquidity check of `check_and_alert` can fire. -/
theorem check_and_alert_const_metrics (cid : String) (oq nq : ℚ) :
    check_and_alert cid 100 100 600 600 oq nq =
      if nq < oq * 0.7 then [⟨.LiquidityDecrease, some cid, none, oq, nq⟩]
      else [] := by
  norm_num [check_and_alert]

/-- Invariant of the monitor cycle: when every stored snapshot has
`success_rate = 100` and `latency = 600`, every emitted alert is a
`LiquidityDecrease` and the invariant is preserved by the overwrites. -/
theorem checkCorridorsGo_const_metrics (parse : String → Option ℚ) :
    ∀ (corridors : List (String × List Payment)) (alerts : List Alert)
      (prev : String → Option CorridorState),
      (∀ k st, prev k = some st → st.success_rate = 100 ∧ st.latency = 600) →
      (∀ a ∈ alerts, a.alert_type = .LiquidityDecrease) →
      (∀ a ∈ (checkCorridorsGo parse alerts prev corridors).1,
         a.alert_type = .LiquidityDecrease) ∧
      (∀ k st, (checkCorridorsGo parse alerts prev corridors).2 k = some st →
         st.success_rate = 100 ∧ st.latency = 600) := by
  intro corridors
  induction corridors with
  | nil => intro alerts prev hprev hacc; exact ⟨hacc, hprev⟩
  | cons entry rest ih =>
      intro alerts prev hprev hacc
      obtain ⟨k, qs⟩ := entry
      have hds : (deriveCorridorState parse qs).success_rate = 100 := rfl
      have hdl : (deriveCorridorState parse qs).latency = 600 := by
        norm_num [deriveCorridorState]
      have hprev2 : ∀ k2 st,
          (fun kk => if kk = k then some (deriveCorridorState parse qs) else prev kk)
            k2 = some st → st.success_rate = 100 ∧ st.latency = 600 := by
        intro k2 st hst
        by_cases hk : k2 = k
        · subst hk
          have hst2 : deriveCorridorState parse qs = st := by simpa using hst
          subst hst2
          exact ⟨hds, hdl⟩
        · simp only [if_neg hk] at hst
          exact hprev k2 st hst
      cases hp : prev k with
      | none =>
          simp only [checkCorridorsGo, hp]
          exact ih _ _ hprev2 hacc
      | some old =>
          have hold := hprev k old hp
          simp only [checkCorridorsGo, hp]
          refine ih _ _ hprev2 ?_
          intro a ha
          rcases List.mem_append.mp ha with hin | hin
          · exact hacc a hin
          · rw [hold.1, hold.2, hds, hdl, check_and_alert_const_metrics] at hin
            split at hin
            · simp only [List.mem_singleton] at hin
              rw [hin]
            · simp at hin

/-- C10: `check_corridors` derives `success_rate` as the constant 100 and
`latency` as `400 + success_rate * 2 = 600` for every corridor in every
cycle; hence successive snapshots always agree on success rate and latency,
and the corridor monitoring loop can only ever emit `LiquidityDecrease`
alerts (the stored-snapshot invariant being preserved cycle by cycle). -/
theorem monitor_constant_metrics_only_liquidity (parse : String → Option ℚ)
    (prev : String → Option CorridorState)
    (corridors : List (String × List Payment))
    (hprev : ∀ k st, prev k = some st →
       st.success_rate = 100 ∧ st.latency = 600) :
    (∀ ps : List Payment,
       (deriveCorridorState parse ps).success_rate = 100 ∧
       (deriveCorridorState parse ps).latency =
         400 + (deriveCorridorState parse ps).success_rate * 2 ∧
       (deriveCorridorState parse ps).latency = 600) ∧
    (∀ a ∈ (check_corridors parse prev corridors).1,
       a.alert_type = .LiquidityDecrease) ∧
    (∀ k st, (check_corridors parse prev corridors).2 k = some st →
       st.success_rate = 100 ∧ st.latency = 600) := by
  have h := checkCorridorsGo_const_metrics parse corridors [] prev hprev
    (by intro a ha; simp at ha)
  exact ⟨fun ps => ⟨rfl, rfl, by norm_num [deriveCorridorState]⟩, h.1, h.2⟩

/-- Witness for C10: empty prior state, one corridor with one 5-unit payment. -/
theorem monitor_constant_metrics_only_liquidity_witness :
    (deriveCorridorState (fun _ => some 5) []).success_rate = 100 ∧
    (∀ a ∈ (check_corridors (fun _ => some 5) (fun _ => none)
        [("XLM:native->XLM:native", [])]).1,
       a.alert_type = .LiquidityDecrease) := by
  have h := monitor_constant_metrics_only_liquidity (fun _ => some 5)
    (fun _ => none) [("XLM:native->XLM:native", [])]
    (by intro k st hst; simp at hst)
  exact ⟨(h.1 []).1, h.2.1⟩

/-- C9: with `mock_mode` set, every modelled fetch operation returns `Ok` with
the synthetic records determined solely by the call's arguments (identical
calls return identical data by functionality), never consults the network
outcome, and leaves the client — in particular its breaker state — unchanged
over any number of calls. -/
theorem mock_mode_bypasses_breaker (c : StellarRpcClient)
    (h : c.mock_mode = true) :
    (∀ limit now net, fetch_payments c limit now net = (.ok (mock_payments limit), c)) ∧
    (∀ now net, check_health c now net = (.ok mock_health_response, c)) ∧
    (∀ limit now net n,
       (fun st => (fetch_payments st limit now net).2)^[n] c = c) := by
  refine ⟨fun limit now net => by simp [fetch_payments, h],
          fun now net => by simp [check_health, h],
          fun limit now net n => ?_⟩
  induction n with
  | zero => rfl
  | succ n ih =>
      rw [Function.iterate_succ_apply]
      simpa [fetch_payments, h] using ih

/-- Witness for C9 at a concrete mock-mode client and a network stub that
would always fail. -/
theorem mock_mode_bypasses_breaker_witness :
    fetch_payments ⟨"u", "h", true, .Closed 0, ⟨3, 100, 5000, ⟨5, 2, 30, 3⟩⟩⟩ 2 0
        (fun _ => .error (.NetworkError "down")) =
      (.ok (mock_payments 2), ⟨"u", "h", true, .Closed 0, ⟨3, 100, 5000, ⟨5, 2, 30, 3⟩⟩⟩) ∧
    check_health ⟨"u", "h", true, .Closed 0, ⟨3, 100, 5000, ⟨5, 2, 30, 3⟩⟩⟩ 0
        (fun _ => .error (.NetworkError "down")) =
      (.ok mock_health_response, ⟨"u", "h", true, .Closed 0, ⟨3, 100, 5000, ⟨5, 2, 30, 3⟩⟩⟩) := by
  have h := mock_mode_bypasses_breaker
    ⟨"u", "h", true, .Closed 0, ⟨3, 100, 5000, ⟨5, 2, 30, 3⟩⟩⟩ rfl
  exact ⟨h.1 2 0 _, h.2.1 0 _⟩

/-- Transient errors are retryable (`is_retryable` starts from
`is_transient`). -/
theorem RpcError.retryable_of_transient (e : RpcError)
    (h : e.is_transient = true) : e.is_retryable = true := by
  cases e <;> simp_all [RpcError.is_retryable, RpcError.is_transient]

/-- Non-retryable errors are not transient. -/
theorem RpcError.not_transient_of_not_retryable (e : RpcError)
    (h : e.is_retryable = false) : e.is_transient = false := by
  cases hb : e.is_transient
  · rfl
  · rw [RpcError.retryable_of_transient e hb] at h
    exact Bool.noConfusion h

/-- One `with_retry` iteration on a successful operation through a closed
breaker. -/
theorem withRetryGo_closed_ok (cfg : RetryConfig) (bcfg : CircuitBreakerConfig)
    (op : Nat → Except RpcError α) (times : Nat → Nat)
    (a inv : Nat) (delays : List Nat) (c : Nat) (v : α)
    (hop : op inv = .ok v) :
    withRetryGo cfg bcfg op times a inv delays (.Closed c) =
      ⟨.ok v, inv + 1, delays.reverse, .Closed 0⟩ := by
  rw [withRetryGo.eq_def]
  simp [hop, cbCall_closed_ok]

/-- One `with_retry` iteration on a non-transient failure through a closed
breaker: the loop stops with that error. -/
theorem withRetryGo_closed_err_stop (cfg : RetryConfig)
    (bcfg : CircuitBreakerConfig) (op : Nat → Except RpcError α)
    (times : Nat → Nat) (a inv : Nat) (delays : List Nat) (c : Nat)
    (e : RpcError) (hop : op inv = .error e) (ht : e.is_transient = false) :
    withRetryGo cfg bcfg op times a inv delays (.Closed c) =
      ⟨.error e, inv + 1, delays.reverse,
       if e.is_retryable then
         (if bcfg.failure_threshold ≤ c + 1 then .Open (times (a + 1))
          else .Closed (c + 1))
       else .Closed c⟩ := by
  rw [withRetryGo.eq_def]
  by_cases hr : e.is_retryable = true
  · simp [hop, cbCall_closed_err_retryable bcfg c (times (a + 1)) e hr, ht, hr]
  · have hr2 : e.is_retryable = false := by
      cases hb : e.is_retryable
      · rfl
      · exact absurd hb hr
    simp [hop, cbCall_closed_err_nonretryable bcfg c (times (a + 1)) e hr2, ht, hr2]

/-- One `with_retry` iteration on a transient failure through a closed
breaker, below both the attempt and the failure thresholds: the loop sleeps
the clamped exponential delay and retries. -/
theorem withRetryGo_closed_err_retry (cfg : RetryConfig)
    (bcfg : CircuitBreakerConfig) (op : Nat → Except RpcError α)
    (times : Nat → Nat) (a inv : Nat) (delays : List Nat) (c : Nat)
    (e : RpcError) (hop : op inv = .error e) (ht : e.is_transient = true)
    (hatt : a + 1 < cfg.max_attempts) (hth : ¬ bcfg.failure_threshold ≤ c + 1) :
    withRetryGo cfg bcfg op times a inv delays (.Closed c) =
      withRetryGo cfg bcfg op times (a + 1) (inv + 1)
        (min (cfg.base_delay_ms * 2 ^ a) cfg.max_delay_ms :: delays)
        (.Closed (c + 1)) := by
  rw [withRetryGo.eq_def]
  have hr : e.is_retryable = true := RpcError.retryable_of_transient e ht
  simp [hop, cbCall_closed_err_retryable bcfg c (times (a + 1)) e hr, hth, ht, hatt]

/-- One `with_retry` iteration against an open, not yet timed-out breaker:
`CircuitBreakerOpen` is returned, the operation is not invoked, and — being
non-transient — the error ends the loop at once. -/
theorem withRetryGo_open_stop (cfg : RetryConfig)
    (bcfg : CircuitBreakerConfig) (op : Nat → Except RpcError α)
    (times : Nat → Nat) (a inv : Nat) (delays : List Nat) (t : Nat)
    (hto : times (a + 1) - t < bcfg.timeout_duration) :
    withRetryGo cfg bcfg op times a inv delays (.Open t) =
      ⟨.error .CircuitBreakerOpen, inv, delays.reverse, .Open t⟩ := by
  rw [withRetryGo.eq_def]
  have h2 : ¬ (bcfg.timeout_duration ≤ times (a + 1) - t) := by omega
  simp [cbCall, cbIsOpen, h2, RpcError.is_transient]

/-- A `with_retry` run of `j` transient failures followed by a success, kept
below the attempt and breaker thresholds: the success value is returned, the
operation runs `j + 1` times, and the slept delays are the clamped
exponential backoffs in order. -/
theorem withRetryGo_transient_then_ok (cfg : RetryConfig)
    (bcfg : CircuitBreakerConfig) (op : Nat → Except RpcError α)
    (times : Nat → Nat) :
    ∀ (j a c inv : Nat) (delays : List Nat) (v : α),
      (∀ i, i < j → ∃ e, op (inv + i) = .error e ∧ e.is_transient = true) →
      op (inv + j) = .ok v →
      a + j < cfg.max_attempts →
      c + j < bcfg.failure_threshold →
      withRetryGo cfg bcfg op times a inv delays (.Closed c) =
        ⟨.ok v, inv + j + 1,
         delays.reverse ++ (List.range j).map
           (fun i => min (cfg.base_delay_ms * 2 ^ (a + i)) cfg.max_delay_ms),
         .Closed 0⟩ := by
  intro j
  induction j with
  | zero =>
      intro a c inv delays v _ hok _ _
      rw [withRetryGo_closed_ok cfg bcfg op times a inv delays c v
        (by simpa using hok)]
      simp
  | succ j ih =>
      intro a c inv delays v hfail hok hatt hth
      obtain ⟨e, he, het⟩ := hfail 0 (Nat.succ_pos j)
      rw [withRetryGo_closed_err_retry cfg bcfg op times a inv delays c e
        (by simpa using he) het (by omega) (by omega)]
      rw [ih (a + 1) (c + 1) (inv + 1) _ v
        (fun i hij => by
          obtain ⟨e2, he2, het2⟩ := hfail (i + 1) (by omega)
          exact ⟨e2, by rw [show inv + 1 + i = inv + (i + 1) from by omega]; exact he2,
                 het2⟩)
        (by rw [show inv + 1 + j = inv + (j + 1) from by omega]; exact hok)
        (by omega) (by omega)]
      have hexp : ∀ i : Nat, a + 1 + i = a + (i + 1) := fun i => by omega
      simp only [RetryRun.mk.injEq]
      refine ⟨trivial, by omega, ?_, trivial⟩
      simp [List.reverse_cons, List.range_succ_eq_map, List.map_map,
        Function.comp, hexp]

/-- The operation is invoked at most `max_attempts - attempt` more times once
the loop is at counter value `attempt < max_attempts`. -/
theorem withRetryGo_invocations_le (cfg : RetryConfig)
    (bcfg : CircuitBreakerConfig) (op : Nat → Except RpcError α)
    (times : Nat → Nat) :
    ∀ (n a inv : Nat) (delays : List Nat) (s : CircuitState),
      cfg.max_attempts - a ≤ n → a < cfg.max_attempts →
      (withRetryGo cfg bcfg op times a inv delays s).invocations ≤
        inv + (cfg.max_attempts - a) := by
  intro n
  induction n with
  | zero => intro a inv delays s hn ha; exact absurd hn (by omega)
  | succ n ih =>
      intro a inv delays s hn ha
      rw [withRetryGo.eq_def]
      have hone : 1 ≤ cfg.max_attempts - a := by omega
      cases hres : (cbCall bcfg s (times (a + 1)) (op inv)).result with
      | ok v =>
          simp only [hres]
          split <;> simp <;> omega
      | error e =>
          simp only [hres]
          by_cases hcond : e.is_transient = true ∧ a + 1 < cfg.max_attempts
          · rw [dif_pos hcond]
            have hrec := ih (a + 1)
              (if (cbCall bcfg s (times (a + 1)) (op inv)).invoked = true
               then inv + 1 else inv)
              (min (cfg.base_delay_ms * 2 ^ (a + 1 - 1)) cfg.max_delay_ms :: delays)
              (cbCall bcfg s (times (a + 1)) (op inv)).state
              (by omega) hcond.2
            refine le_trans hrec ?_
            split <;> omega
          · rw [dif_neg hcond]
            split <;> simp <;> omega

/-- The delays slept by a `with_retry` run extend the accumulator with
consecutive clamped exponential backoffs. -/
theorem withRetryGo_delays_shape (cfg : RetryConfig)
    (bcfg : CircuitBreakerConfig) (op : Nat → Except RpcError α)
    (times : Nat → Nat) :
    ∀ (n a inv : Nat) (delays : List Nat) (s : CircuitState),
      cfg.max_attempts - a ≤ n →
      ∃ j, (withRetryGo cfg bcfg op times a inv delays s).delays =
        delays.reverse ++ (List.range j).map
          (fun i => min (cfg.base_delay_ms * 2 ^ (a + i)) cfg.max_delay_ms) := by
  intro n
  induction n with
  | zero =>
      intro a inv delays s hn
      rw [withRetryGo.eq_def]
      cases hres : (cbCall bcfg s (times (a + 1)) (op inv)).result with
      | ok v => exact ⟨0, by simp [hres]⟩
      | error e =>
          refine ⟨0, ?_⟩
          simp only [hres]
          rw [dif_neg (by omega)]
          simp
  | succ n ih =>
      intro a inv delays s hn
      rw [withRetryGo.eq_def]
      cases hres : (cbCall bcfg s (times (a + 1)) (op inv)).result with
      | ok v => exact ⟨0, by simp [hres]⟩
      | error e =>
          simp only [hres]
          by_cases hcond : e.is_transient = true ∧ a + 1 < cfg.max_attempts
          · rw [dif_pos hcond]
            obtain ⟨j, hj⟩ := ih (a + 1)
              (if (cbCall bcfg s (times (a + 1)) (op inv)).invoked = true
               then inv + 1 else inv)
              (min (cfg.base_delay_ms * 2 ^ (a + 1 - 1)) cfg.max_delay_ms :: delays)
              (cbCall bcfg s (times (a + 1)) (op inv)).state
              (by omega)
            refine ⟨j + 1, ?_⟩
            rw [hj]
            have hexp : ∀ i : Nat, a + 1 + i = a + (i + 1) := fun i => by omega
            simp [List.range_succ_eq_map, List.map_map, Function.comp, hexp]
          · rw [dif_neg hcond]
            exact ⟨0, by simp⟩

/-- The clamped exponential backoff sequence is non-decreasing and capped. -/
theorem backoff_delays_monotone_capped (b m j : Nat) :
    List.Chain' (· ≤ ·)
      ((List.range j).map (fun i => min (b * 2 ^ i) m)) ∧
    ∀ d ∈ (List.range j).map (fun i => min (b * 2 ^ i) m), d ≤ m := by
  constructor
  · rw [List.chain'_map]
    cases j with
    | zero => simp
    | succ j =>
        rw [List.chain'_range_succ]
        intro i _
        exact min_le_min
          (Nat.mul_le_mul_left b (Nat.pow_le_pow_right (by norm_num) (by omega)))
          le_rfl
  · intro d hd
    obtain ⟨i, _, rfl⟩ := List.mem_map.mp hd
    exact min_le_right _ _

/-- C5 counterexample: the claim promises that `k < max_attempts` retryable
failures followed by a success yield the success after `k+1` invocations, but
`with_retry` retries only on `is_transient()`: one retryable (5xx) failure
followed by a success returns the error after a single invocation. -/
theorem retry_policy_counterexample :
    (RpcError.ServerError 500 "oops").is_retryable = true ∧
    (with_retry ⟨3, 100, 5000⟩ ⟨5, 2, 30, 3⟩
        (fun i => if i = 0 then .error (.ServerError 500 "oops") else .ok ())
        (fun _ => 0) (.Closed 0)).result = .error (.ServerError 500 "oops") ∧
    (with_retry ⟨3, 100, 5000⟩ ⟨5, 2, 30, 3⟩
        (fun i => if i = 0 then .error (.ServerError 500 "oops") else .ok ())
        (fun _ => 0) (.Closed 0)).invocations = 1 := by
  refine ⟨by decide, ?_, ?_⟩ <;>
    simp [with_retry, withRetryGo, cbCall, cbIsOpen, cbOnFailure, cbOnSuccess,
      RpcError.is_retryable, RpcError.is_transient]

/-- C5 (amended): under `with_retry` from a closed breaker: a first failure
with `is_retryable()` false is returned after exactly one invocation; `k`
transient failures (`is_transient()`: network, timeout, rate-limit — NOT
retryable-but-non-transient 5xx server errors) followed by a success, with
`k < max_attempts` and `k` below the breaker's failure threshold, return the
success value after exactly `k+1` invocations; the operation is never invoked
more than `max_attempts` times; and the slept backoff delays form a
non-decreasing sequence capped at `max_delay_ms`. -/
theorem retry_policy_behavior (cfg : RetryConfig) (bcfg : CircuitBreakerConfig)
    (op : Nat → Except RpcError α) (times : Nat → Nat) :
    (∀ (f : Nat) (e : RpcError), op 0 = .error e → e.is_retryable = false →
       (with_retry cfg bcfg op times (.Closed f)).result = .error e ∧
       (with_retry cfg bcfg op times (.Closed f)).invocations = 1) ∧
    (∀ (k : Nat) (v : α),
       (∀ i, i < k → ∃ e, op i = .error e ∧ e.is_transient = true) →
       op k = .ok v → k < cfg.max_attempts → k < bcfg.failure_threshold →
       (with_retry cfg bcfg op times (.Closed 0)).result = .ok v ∧
       (with_retry cfg bcfg op times (.Closed 0)).invocations = k + 1 ∧
       (with_retry cfg bcfg op times (.Closed 0)).delays =
         (List.range k).map
           (fun i => min (cfg.base_delay_ms * 2 ^ i) cfg.max_delay_ms)) ∧
    (∀ s, 1 ≤ cfg.max_attempts →
       (with_retry cfg bcfg op times s).invocations ≤ cfg.max_attempts) ∧
    (∀ s, List.Chain' (· ≤ ·) (with_retry cfg bcfg op times s).delays ∧
       ∀ d ∈ (with_retry cfg bcfg op times s).delays, d ≤ cfg.max_delay_ms) := by
  refine ⟨?_, ?_, ?_, ?_⟩
  · intro f e h1 h2
    have ht := RpcError.not_transient_of_not_retryable e h2
    rw [with_retry, withRetryGo_closed_err_stop cfg bcfg op times 0 0 [] f e h1 ht]
    exact ⟨rfl, rfl⟩
  · intro k v hfail hok hatt hth
    rw [with_retry, withRetryGo_transient_then_ok cfg bcfg op times k 0 0 0 [] v
      (by simpa using hfail) (by simpa using hok) (by omega) (by omega)]
    refine ⟨rfl, by simp, by simp⟩
  · intro s hmax
    have h := withRetryGo_invocations_le cfg bcfg op times cfg.max_attempts
      0 0 [] s (by omega) (by omega)
    simpa using h
  · intro s
    obtain ⟨j, hj⟩ := withRetryGo_delays_shape cfg bcfg op times
      cfg.max_attempts 0 0 [] s (by omega)
    rw [with_retry, hj]
    simpa using backoff_delays_monotone_capped cfg.base_delay_ms
      cfg.max_delay_ms j

/-- Witness for C5 (amended): one transient timeout, then success, with
`max_attempts = 3` and failure threshold 5. -/
theorem retry_policy_behavior_witness :
    (with_retry ⟨3, 100, 5000⟩ ⟨5, 2, 30, 3⟩
        (fun i => if i = 0 then .error (.TimeoutError "t") else .ok ())
        (fun _ => 0) (.Closed 0)).result = .ok () ∧
    (with_retry ⟨3, 100, 5000⟩ ⟨5, 2, 30, 3⟩
        (fun i => if i = 0 then .error (.TimeoutError "t") else .ok ())
        (fun _ => 0) (.Closed 0)).invocations = 2 ∧
    (with_retry ⟨3, 100, 5000⟩ ⟨5, 2, 30, 3⟩
        (fun i => if i = 0 then .error (.TimeoutError "t") else .ok ())
        (fun _ => 0) (.Closed 0)).delays =
      (List.range 1).map (fun i => min (100 * 2 ^ i) 5000) := by
  have h := (retry_policy_behavior ⟨3, 100, 5000⟩ ⟨5, 2, 30, 3⟩
    (fun i => if i = 0 then .error (.TimeoutError "t") else .ok ())
    (fun _ => 0)).2.1 1 ()
    (by
      intro i hi
      have hi0 : i = 0 := by omega
      subst hi0
      exact ⟨.TimeoutError "t", rfl, rfl⟩)
    rfl (by decide) (by decide)
  exact ⟨h.1, h.2.1, h.2.2⟩

/-- C6 counterexample: with `failure_threshold = 1` and an operation that
always fails with a retryable `NetworkError`, per-attempt breaker composition
(the claim) would stop after 1 invocation with `CircuitBreakerOpen` — and
`with_retry` does exactly that — but the RPC client's
`with_circuit_and_retry` wraps the whole retry sequence in one breaker call,
so it invokes the operation 4 times and returns the `NetworkError`, not
`CircuitBreakerOpen`. -/
theorem retry_breaker_composition_counterexample :
    (with_retry ⟨3, 100, 5000⟩ ⟨1, 2, 30, 3⟩
        ((fun _ => .error (.NetworkError "x")) : Nat → Except RpcError Unit)
        (fun _ => 0) (.Closed 0)).result = .error .CircuitBreakerOpen ∧
    (with_retry ⟨3, 100, 5000⟩ ⟨1, 2, 30, 3⟩
        ((fun _ => .error (.NetworkError "x")) : Nat → Except RpcError Unit)
        (fun _ => 0) (.Closed 0)).invocations = 1 ∧
    (with_circuit_and_retry ⟨3, 100, 5000, ⟨1, 2, 30, 3⟩⟩ (.Closed 0) 0
        ((fun _ => .error (.NetworkError "x")) : Nat → Except RpcError Unit)).result
      = .error (.NetworkError "x") ∧
    (with_circuit_and_retry ⟨3, 100, 5000, ⟨1, 2, 30, 3⟩⟩ (.Closed 0) 0
        ((fun _ => .error (.NetworkError "x")) : Nat → Except RpcError Unit)).invocations
      = 4 ∧
    (Except.error (RpcError.NetworkError "x") : Except RpcError Unit) ≠
      Except.error RpcError.CircuitBreakerOpen := by
  refine ⟨?_, ?_, ?_, ?_, by decide⟩ <;>
    simp [with_retry, withRetryGo, with_circuit_and_retry, retry_with_backoff,
      retryWithBackoffGo, cbCall, cbIsOpen, cbOnFailure, cbOnSuccess,
      RpcError.is_retryable, RpcError.is_transient, RpcError.retry_after]

/-- C6 (amended): `with_retry` in error.rs does run the guarded operation
through the breaker on every attempt, so an attempt that finds the breaker
open (and not timed out) returns `CircuitBreakerOpen` — non-transient, hence
non-retried — without invoking the operation and ends the loop; but the RPC
client's operations (`with_circuit_and_retry`) wrap the entire
`retry_with_backoff` sequence in a single breaker call: the gate is consulted
once before the sequence (an open gate yields `CircuitBreakerOpen` with zero
invocations), and when the gate admits the call the whole retry sequence runs
to its own completion, its invocation count and result untouched by the
breaker. -/
theorem retry_breaker_composition (rcfg : RetryConfig)
    (ccfg : RpcClientConfig) (bcfg : CircuitBreakerConfig)
    (op : Nat → Except RpcError α) (times : Nat → Nat) :
    (∀ a inv delays t, times (a + 1) - t < bcfg.timeout_duration →
       withRetryGo rcfg bcfg op times a inv delays (.Open t) =
         ⟨.error .CircuitBreakerOpen, inv, delays.reverse, .Open t⟩) ∧
    (RpcError.CircuitBreakerOpen.is_transient = false ∧
     RpcError.CircuitBreakerOpen.is_retryable = false) ∧
    (∀ s now, (cbIsOpen ccfg.circuit_breaker s now).1 = true →
       (with_circuit_and_retry ccfg s now op).result =
         .error .CircuitBreakerOpen ∧
       (with_circuit_and_retry ccfg s now op).invocations = 0) ∧
    (∀ s now, (cbIsOpen ccfg.circuit_breaker s now).1 = false →
       (with_circuit_and_retry ccfg s now op).invocations =
         (retry_with_backoff op ccfg.max_retries ccfg.initial_backoff
            ccfg.max_backoff).invocations ∧
       (with_circuit_and_retry ccfg s now op).result =
         (retry_with_backoff op ccfg.max_retries ccfg.initial_backoff
            ccfg.max_backoff).result) := by
  refine ⟨fun a inv delays t hto =>
            withRetryGo_open_stop rcfg bcfg op times a inv delays t hto,
          ⟨rfl, rfl⟩, ?_, ?_⟩
  · intro s now h
    simp [with_circuit_and_retry, cbCall, h]
  · intro s now h
    simp only [with_circuit_and_retry, cbCall, h]
    cases hres : (retry_with_backoff op ccfg.max_retries ccfg.initial_backoff
        ccfg.max_backoff).result with
    | ok v => simp [hres]
    | error e => simp [hres]

/-- Witness for C6 (amended): an open breaker (`opened_at = 0`, call at time
0, timeout 30) short-circuits `with_retry` without invoking the operation,
and yields zero invocations through `with_circuit_and_retry`. -/
theorem retry_breaker_composition_witness :
    withRetryGo ⟨3, 100, 5000⟩ ⟨1, 2, 30, 3⟩
        ((fun _ => .error (.NetworkError "x")) : Nat → Except RpcError Unit)
        (fun _ => 0) 1 1 [100] (.Open 0) =
      ⟨.error .CircuitBreakerOpen, 1, [100].reverse, .Open 0⟩ ∧
    (with_circuit_and_retry ⟨3, 100, 5000, ⟨1, 2, 30, 3⟩⟩ (.Open 0) 0
        ((fun _ => .error (.NetworkError "x")) : Nat → Except RpcError Unit)).invocations
      = 0 := by
  have h := retry_breaker_composition ⟨3, 100, 5000⟩ ⟨3, 100, 5000, ⟨1, 2, 30, 3⟩⟩
    ⟨1, 2, 30, 3⟩
    ((fun _ => .error (.NetworkError "x")) : Nat → Except RpcError Unit)
    (fun _ => 0)
  exact ⟨h.1 1 1 [100] 0 (by decide), (h.2.2.1 (.Open 0) 0 (by decide)).2⟩

end StellarInsights
